import Mathlib

/-!
# Formal model of the agent reputation dashboard core (src/index.ts)

This file embeds the aggregation core of the bounty reputation dashboard:
the on-chain reputation reader (`fetchOnChainReputation`,
`fetchAllOnChainAgents`), the pure aggregator (`aggregateAgents`), the
TTL profile cache (`getAgents`), and the single-agent request handler.

Modelling conventions:
* JS `Map`s are insertion-ordered association lists `List (String × α)`;
  `Map.get`/`Map.has`/`Map.set` become `mapLookup`/`mapHasKey`/`mapSet`.
* JS numbers are `ℚ` (earnings), `ℕ` (counters, scores) and `ℤ`
  (rounded percentages, timestamps in milliseconds).
* A fallible network read is modelled by its settled result: `none` is a
  rejected promise, `some v` a fulfilled one.
* `String.prototype.toLowerCase` is modelled by `jsToLower`
  (character-wise lowering, executable in the kernel).
* Concurrently launched reads whose results are inserted into a map are
  modelled in launch (index/iteration) order.
-/

/-- Character-wise lower-casing, the model of JS `toLowerCase`. -/
def jsToLower (s : String) : String := ⟨s.data.map Char.toLower⟩

/-- One on-chain feedback entry after the field coercions of
`fetchOnChainReputation` (src/index.ts:100-105). -/
structure FeedbackEntry where
  fromAddr : String
  score : Int
  comment : String
  timestamp : Int
deriving DecidableEq

/-- A raw feedback tuple as returned by the `getFeedback` contract read.
A field that is absent or falsy is `none`, matching the
`String(f.from || "")`-style coercions applied to it. -/
structure RawFeedback where
  fromAddr : Option String
  score : Option Int
  comment : Option String
  timestamp : Option Int
deriving DecidableEq

/-- The coercion applied to each raw feedback tuple
(src/index.ts:100-105). -/
def coerceFeedback (f : RawFeedback) : FeedbackEntry :=
  { fromAddr := f.fromAddr.getD ""
    score := f.score.getD 0
    comment := f.comment.getD ""
    timestamp := f.timestamp.getD 0 }

/-- `payment` object of a bounty (src/index.ts:37).  The fields hold the
numeric value that `Number(...)` yields on them; an absent or empty
(falsy) field is `none`. -/
structure Payment where
  grossAmount : Option ℚ
  grossReward : Option ℚ
deriving DecidableEq

/-- A bounty record from the bounty API (src/index.ts:26-38). -/
structure Bounty where
  id : String
  title : String
  description : String
  status : String
  reward : String
  rewardFormatted : String
  tags : List String
  claimedBy : Option String
  createdAt : Option String
  completedAt : Option String
  payment : Option Payment
deriving DecidableEq

/-- On-chain reputation data for one address (src/index.ts:40-49). -/
structure OnChainReputation where
  address : String
  reputationScore : ℕ
  feedback : List FeedbackEntry
deriving DecidableEq

/-- One entry of a profile's bounty history (src/index.ts:65-71). -/
structure HistoryEntry where
  bountyId : String
  title : String
  reward : ℚ
  status : String
  date : String
deriving DecidableEq

/-- An aggregated agent profile (src/index.ts:51-72).  `tags` is a JS
object used as a counter map, modelled as an insertion-ordered
association list. -/
structure AgentProfile where
  address : String
  onChainReputation : ℕ
  totalEarnings : ℚ
  bountiesCompleted : ℕ
  bountiesClaimed : ℕ
  successRate : ℤ
  tags : List (String × ℕ)
  recentFeedback : List FeedbackEntry
  history : List HistoryEntry
deriving DecidableEq

/-! ## Association-list model of JS `Map` -/

/-- `Map.get` -/
def mapLookup {α : Type} (m : List (String × α)) (k : String) : Option α :=
  (m.find? (fun kv => kv.1 == k)).map (fun kv => kv.2)

/-- `Map.has` -/
def mapHasKey {α : Type} (m : List (String × α)) (k : String) : Bool :=
  m.any (fun kv => kv.1 == k)

/-- Mutation of the value stored under an existing key (a JS `Map.set`
on a present key keeps the entry's position). -/
def mapUpdate {α : Type} (m : List (String × α)) (k : String) (f : α → α) :
    List (String × α) :=
  m.map (fun kv => if kv.1 == k then (kv.1, f kv.2) else kv)

/-- `Map.set`: overwrite in place when the key is present, else append. -/
def mapSet {α : Type} (m : List (String × α)) (k : String) (v : α) :
    List (String × α) :=
  if mapHasKey m k then mapUpdate m k (fun _ => v) else m ++ [(k, v)]

/-- The key list of a map, in iteration order. -/
def mapKeys {α : Type} (m : List (String × α)) : List String :=
  m.map (fun kv => kv.1)

/-! ## OnChainReader -/

/-- Model of `fetchOnChainReputation` (src/index.ts:76-114).  `scoreRes`
is the settled `getReputation` read; `feedbackRes` the settled
`getFeedback` read, where `some none` is a fulfilled value that is not an
array (the `Array.isArray` guard).  Both reads are issued through
`Promise.allSettled`, so each is independently fallible and the function
itself always returns a structure. -/
def fetchOnChainReputation (address : String) (scoreRes : Option ℕ)
    (feedbackRes : Option (Option (List RawFeedback))) : OnChainReputation :=
  { address := address
    reputationScore := scoreRes.getD 0
    feedback :=
      match feedbackRes with
      | some (some fs) => fs.map coerceFeedback
      | _ => [] }

/-- Model of `fetchAllOnChainAgents` (src/index.ts:116-159).  `countRes`
is the settled `getAgentCount` read (a rejection is absorbed by
`.catch(() => 0n)`, yielding count 0); `idxEnv i` the settled
`getAgentByIndex(i)` read, with a failed index silently skipped; and
`repEnv a` the pair of settled contract reads consumed by
`fetchOnChainReputation a`. -/
def fetchAllOnChainAgents (countRes : Option ℕ) (idxEnv : ℕ → Option String)
    (repEnv : String → Option ℕ × Option (Option (List RawFeedback))) :
    List (String × OnChainReputation) :=
  let count := countRes.getD 0
  if 0 < count then
    (List.range (min count 50)).foldl
      (fun acc i =>
        match idxEnv i with
        | some addr =>
            mapSet acc (jsToLower addr)
              (fetchOnChainReputation addr (repEnv addr).1 (repEnv addr).2)
        | none => acc)
      []
  else []

/-! ## Aggregator -/

/-- The claimant of a bounty, `none` when `claimedBy` is absent or the
empty string (both falsy for the `!b.claimedBy` guard, src/index.ts:170). -/
def claimant (b : Bounty) : Option String :=
  match b.claimedBy with
  | some s => if s = "" then none else some s
  | none => none

/-- `feedback.slice(-10)`: the last up-to-10 entries. -/
def lastTen (l : List FeedbackEntry) : List FeedbackEntry :=
  l.drop (l.length - 10)

/-- The profile created on first sight of a claimant
(src/index.ts:176-186), seeded from its on-chain record if present. -/
def seedProfile (addr : String) (onChain : Option OnChainReputation) :
    AgentProfile :=
  { address := addr
    onChainReputation :=
      match onChain with
      | some o => o.reputationScore
      | none => 0
    totalEarnings := 0
    bountiesCompleted := 0
    bountiesClaimed := 0
    successRate := 0
    tags := []
    recentFeedback :=
      match onChain with
      | some o => lastTen o.feedback
      | none => []
    history := [] }

/-- `Number(b.payment.grossAmount || b.payment.grossReward || 0)`
(src/index.ts:194): `grossAmount` when present (truthy), else
`grossReward`, else 0; 0 when `payment` is absent. -/
def paymentAmount (b : Bounty) : ℚ :=
  match b.payment with
  | some p =>
      match p.grossAmount with
      | some x => x
      | none => p.grossReward.getD 0
  | none => 0

/-- The `reward` local (src/index.ts:192-195): micro-units scaled by
1e6 for a completed bounty, 0 otherwise. -/
def computedReward (b : Bounty) : ℚ :=
  if b.status = "completed" then paymentAmount b / 1000000 else 0

/-- `agent.tags[tag] = (agent.tags[tag] || 0) + 1` (src/index.ts:203). -/
def tagBump (tags : List (String × ℕ)) (t : String) : List (String × ℕ) :=
  if mapHasKey tags t then mapUpdate tags t (fun n => n + 1) else tags ++ [(t, 1)]

/-- The per-bounty mutation of the claimant's profile
(src/index.ts:189-212). -/
def applyBounty (a : AgentProfile) (b : Bounty) : AgentProfile :=
  { a with
    bountiesClaimed := a.bountiesClaimed + 1
    bountiesCompleted :=
      if b.status = "completed" then a.bountiesCompleted + 1
      else a.bountiesCompleted
    totalEarnings :=
      if b.status = "completed" then a.totalEarnings + computedReward b
      else a.totalEarnings
    tags := b.tags.foldl tagBump a.tags
    history := a.history ++
      [{ bountyId := b.id
         title := if b.title = "" then "Untitled" else b.title
         reward := computedReward b
         status := b.status
         date := b.createdAt.getD "" }] }

/-- The first pass of `aggregateAgents` over the bounty list
(src/index.ts:169-213), threading the agents map. -/
def processBounties (onChainData : List (String × OnChainReputation)) :
    List Bounty → List (String × AgentProfile) → List (String × AgentProfile)
  | [], agents => agents
  | b :: rest, agents =>
      match claimant b with
      | none => processBounties onChainData rest agents
      | some addr =>
          let key := jsToLower addr
          let agents1 :=
            if mapHasKey agents key then agents
            else agents ++ [(key, seedProfile addr (mapLookup onChainData key))]
          processBounties onChainData rest
            (mapUpdate agents1 key (fun a => applyBounty a b))

/-- The profile of an on-chain agent with no bounty activity
(src/index.ts:218-228). -/
def profileFromOnChain (o : OnChainReputation) : AgentProfile :=
  { address := o.address
    onChainReputation := o.reputationScore
    totalEarnings := 0
    bountiesCompleted := 0
    bountiesClaimed := 0
    successRate := 0
    tags := []
    recentFeedback := lastTen o.feedback
    history := [] }

/-- The second pass of `aggregateAgents`: add any on-chain agents not
seen in bounty data (src/index.ts:216-230). -/
def addOnChainOnly (agents : List (String × AgentProfile))
    (onChainData : List (String × OnChainReputation)) :
    List (String × AgentProfile) :=
  onChainData.foldl
    (fun acc kv =>
      if mapHasKey acc kv.1 then acc
      else acc ++ [(kv.1, profileFromOnChain kv.2)])
    agents

/-- JS `Math.round`: round half towards positive infinity. -/
def jsRound (q : ℚ) : ℤ := ⌊q + 1 / 2⌋

/-- The success-rate pass (src/index.ts:233-238). -/
def setRate (a : AgentProfile) : AgentProfile :=
  { a with
    successRate :=
      if 0 < a.bountiesClaimed then
        jsRound (((a.bountiesCompleted : ℚ) / (a.bountiesClaimed : ℚ)) * 100)
      else 0 }

/-- The sort comparator of src/index.ts:242,
`(a, b) => b.onChainReputation - a.onChainReputation || b.totalEarnings - a.totalEarnings`:
`a` may stay before `b` exactly when the comparator is nonpositive. -/
def profLe (a b : AgentProfile) : Bool :=
  decide (b.onChainReputation < a.onChainReputation ∨
    (b.onChainReputation = a.onChainReputation ∧
      b.totalEarnings ≤ a.totalEarnings))

/-- Model of `aggregateAgents` (src/index.ts:163-244). -/
def aggregateAgents (bounties : List Bounty)
    (onChainData : List (String × OnChainReputation)) : List AgentProfile :=
  ((addOnChainOnly (processBounties onChainData bounties []) onChainData).map
    (fun kv => setRate kv.2)).mergeSort profLe

/-! ## ProfileCache and request handling -/

/-- `CACHE_TTL` (src/index.ts:255), in milliseconds. -/
def CACHE_TTL : ℤ := 60000

/-- The module-level cache state (src/index.ts:253-254). -/
structure CacheState where
  cachedAgents : Option (List AgentProfile)
  cacheTime : ℤ

/-- Deduplication keeping the first occurrence, the model of inserting
into a JS `Set` in iteration order. -/
def dedupKeepFirst : List String → List String
  | [] => []
  | x :: xs => x :: (dedupKeepFirst xs).filter (fun y => !(y == x))

/-- The refresh pipeline of `getAgents` (src/index.ts:260-292):
filter bounties to truthy titles, take the enumerated on-chain map
(failure of either settled fetch yields its fallback), then backfill an
individual reputation for each claimant address missing from the map,
keeping only results with a non-zero score or some feedback. -/
def refreshAgents (bountiesRes : Option (List Bounty))
    (onChainRes : Option (List (String × OnChainReputation)))
    (repEnv : String → Option ℕ × Option (Option (List RawFeedback))) :
    List AgentProfile :=
  let bounties := (bountiesRes.getD []).filter (fun b => !(b.title == ""))
  let onChain := onChainRes.getD []
  let uniqueAddresses :=
    dedupKeepFirst ((bounties.filterMap claimant).map jsToLower)
  let backfill := uniqueAddresses.filterMap (fun addr =>
    if mapHasKey onChain addr then none
    else
      let rep := fetchOnChainReputation addr (repEnv addr).1 (repEnv addr).2
      if 0 < rep.reputationScore ∨ 0 < rep.feedback.length then
        some (addr, rep)
      else none)
  aggregateAgents bounties (onChain ++ backfill)

/-- One call of `getAgents` (src/index.ts:257-295).  `now` is the
`Date.now()` value at entry, `tEnd` the one taken when a recomputation
completes (line 293); the settled fetches and the backfill read
environment are passed explicitly.  Returns the response and the cache
state after the call. -/
def getAgents (st : CacheState) (now : ℤ) (bountiesRes : Option (List Bounty))
    (onChainRes : Option (List (String × OnChainReputation)))
    (repEnv : String → Option ℕ × Option (Option (List RawFeedback)))
    (tEnd : ℤ) : List AgentProfile × CacheState :=
  match st.cachedAgents with
  | some cached =>
      if now - st.cacheTime < CACHE_TTL then (cached, st)
      else
        let result := refreshAgents bountiesRes onChainRes repEnv
        (result, { cachedAgents := some result, cacheTime := tEnd })
  | none =>
      let result := refreshAgents bountiesRes onChainRes repEnv
      (result, { cachedAgents := some result, cacheTime := tEnd })

/-- Outcome of the `/api/agent/:addr` route (src/index.ts:316-331):
either the matched profile or the distinct 404 not-found response. -/
inductive AgentResponse where
  | found : AgentProfile → AgentResponse
  | notFound : AgentResponse
deriving DecidableEq

/-- The `/api/agent/:addr` handler body (src/index.ts:319-327): a
case-insensitive `find` over the cached aggregation. -/
def handleAgentRequest (agents : List AgentProfile) (addr : String) :
    AgentResponse :=
  match agents.find? (fun a => jsToLower a.address == jsToLower addr) with
  | some a => AgentResponse.found a
  | none => AgentResponse.notFound

/-! ## Spec-side derived notions -/

/-- The lower-cased claimant keys of a bounty list, in order. -/
def claimantKeys (bounties : List Bounty) : List String :=
  (bounties.filterMap claimant).map jsToLower

/-- Whether bounty `b` is claimed (with a truthy claimant) by the
case-insensitive key `k`. -/
def matchesKey (k : String) (b : Bounty) : Bool :=
  match claimant b with
  | some s => jsToLower s == k
  | none => false

/-- The claimant string of the first bounty whose claimant lowers to
`k`. -/
def firstClaimant (k : String) (bounties : List Bounty) : Option String :=
  (bounties.filterMap claimant).find? (fun s => jsToLower s == k)

/-- Spec-side earnings of key `k`: the sum, over exactly the bounties
claimed by `k` whose status is "completed", of the payment amount scaled
by 1e6.  (C3 words this sum directly.) -/
def specEarnings (k : String) (bounties : List Bounty) : ℚ :=
  ((bounties.filter (fun b => matchesKey k b && (b.status == "completed"))).map
    (fun b => paymentAmount b / 1000000)).sum

/-- The accumulated effect on one profile of all bounties matching key
`k`, in order. -/
def applyAll (k : String) (bounties : List Bounty) (a : AgentProfile) :
    AgentProfile :=
  (bounties.filter (matchesKey k)).foldl applyBounty a

/-! ## Concrete example data (the spec's test scenario) -/

/-- The spec scenario bounty: completed, claimed by `0xABC`, paying
5,000,000 micro-units, tagged `rust`. -/
def exBounty : Bounty :=
  { id := "1", title := "Fix bug", description := "", status := "completed",
    reward := "", rewardFormatted := "", tags := ["rust"],
    claimedBy := some "0xABC", createdAt := none, completedAt := none,
    payment := some { grossAmount := some 5000000, grossReward := none } }

/-- An on-chain record with no bounty activity. -/
def exRep : OnChainReputation :=
  { address := "0xDEF", reputationScore := 42, feedback := [] }

/-- An on-chain map holding only `exRep`, keyed by lower-cased address. -/
def exM : List (String × OnChainReputation) := [("0xdef", exRep)]

/-- The profile that `aggregateAgents [exBounty] exM` builds for
`0xABC`. -/
def exProfileA : AgentProfile :=
  { address := "0xABC", onChainReputation := 0, totalEarnings := 5,
    bountiesCompleted := 1, bountiesClaimed := 1, successRate := 100,
    tags := [("rust", 1)], recentFeedback := [],
    history := [{ bountyId := "1", title := "Fix bug", reward := 5,
                  status := "completed", date := "" }] }

/-- The standalone profile that `aggregateAgents [exBounty] exM` builds
for the on-chain-only agent `0xDEF`. -/
def exProfileD : AgentProfile :=
  { address := "0xDEF", onChainReputation := 42, totalEarnings := 0,
    bountiesCompleted := 0, bountiesClaimed := 0, successRate := 0,
    tags := [], recentFeedback := [], history := [] }

/-- An index read environment: index 0 resolves to `0xDEF`, all other
index reads fail. -/
def exIdxEnv : ℕ → Option String := fun i => if i = 0 then some "0xDEF" else none

/-- A reputation read environment: every score read returns 42, every
feedback read returns an empty array. -/
def exRepEnv : String → Option ℕ × Option (Option (List RawFeedback)) :=
  fun _ => (some 42, some (some []))

/-! ## Association-list lemmas -/

theorem mapLookup_nil {α : Type} (k : String) :
    mapLookup ([] : List (String × α)) k = none := rfl

theorem mapLookup_cons {α : Type} (kv : String × α) (m : List (String × α))
    (k : String) :
    mapLookup (kv :: m) k = if kv.1 = k then some kv.2 else mapLookup m k := by
  by_cases h : kv.1 = k <;> simp [mapLookup, List.find?_cons, h]

theorem mapHasKey_cons {α : Type} (kv : String × α) (m : List (String × α))
    (k : String) :
    mapHasKey (kv :: m) k = (kv.1 == k || mapHasKey m k) := by
  simp [mapHasKey]

theorem mapLookup_append {α : Type} (m₁ m₂ : List (String × α)) (k : String) :
    mapLookup (m₁ ++ m₂) k = (mapLookup m₁ k).or (mapLookup m₂ k) := by
  simp only [mapLookup, List.find?_append]
  cases m₁.find? (fun kv => kv.1 == k) <;> simp

theorem mapHasKey_append {α : Type} (m₁ m₂ : List (String × α)) (k : String) :
    mapHasKey (m₁ ++ m₂) k = (mapHasKey m₁ k || mapHasKey m₂ k) := by
  simp [mapHasKey, List.any_append]

theorem mapHasKey_eq_isSome {α : Type} (m : List (String × α)) (k : String) :
    mapHasKey m k = (mapLookup m k).isSome := by
  induction m with
  | nil => rfl
  | cons kv m ih =>
      rw [mapHasKey_cons, mapLookup_cons, ih]
      by_cases h : kv.1 = k <;> simp [h]

theorem mapLookup_update_self {α : Type} (m : List (String × α)) (k : String)
    (f : α → α) : mapLookup (mapUpdate m k f) k = (mapLookup m k).map f := by
  induction m with
  | nil => rfl
  | cons kv m ih =>
      by_cases h : kv.1 = k <;>
        simp [mapUpdate, mapLookup_cons, h, ← ih, mapUpdate]

theorem mapLookup_update_ne {α : Type} (m : List (String × α)) {k k' : String}
    (f : α → α) (h : k' ≠ k) :
    mapLookup (mapUpdate m k' f) k = mapLookup m k := by
  induction m with
  | nil => rfl
  | cons kv m ih =>
      show mapLookup ((if kv.1 == k' then (kv.1, f kv.2) else kv) ::
        mapUpdate m k' f) k = mapLookup (kv :: m) k
      by_cases h1 : kv.1 = k'
      · have h2 : kv.1 ≠ k := fun hh => h (h1 ▸ hh)
        simp [mapLookup_cons, h1, h2, h, ih]
      · by_cases h2 : kv.1 = k <;>
          simp [mapLookup_cons, h1, h2, h, Ne.symm h, ih]

theorem mapKeys_update {α : Type} (m : List (String × α)) (k : String)
    (f : α → α) : mapKeys (mapUpdate m k f) = mapKeys m := by
  induction m with
  | nil => rfl
  | cons kv m ih =>
      show (if kv.1 == k then (kv.1, f kv.2) else kv).1 ::
        mapKeys (mapUpdate m k f) = kv.1 :: mapKeys m
      by_cases h : kv.1 = k <;> simp [h, ih]

theorem mapHasKey_update {α : Type} (m : List (String × α)) (k k' : String)
    (f : α → α) : mapHasKey (mapUpdate m k' f) k = mapHasKey m k := by
  by_cases h : k' = k
  · subst h
    rw [mapHasKey_eq_isSome, mapHasKey_eq_isSome, mapLookup_update_self]
    cases mapLookup m k' <;> simp
  · rw [mapHasKey_eq_isSome, mapHasKey_eq_isSome, mapLookup_update_ne m f h]

theorem mapKeys_append {α : Type} (m₁ m₂ : List (String × α)) :
    mapKeys (m₁ ++ m₂) = mapKeys m₁ ++ mapKeys m₂ := by
  simp [mapKeys]

theorem mapHasKey_iff_mem_keys {α : Type} (m : List (String × α)) (k : String) :
    mapHasKey m k = true ↔ k ∈ mapKeys m := by
  simp [mapHasKey, mapKeys, List.any_eq_true]

theorem mapUpdate_forall {α : Type} {P : String × α → Prop}
    {m : List (String × α)} {k : String} {f : α → α}
    (h : ∀ kv ∈ m, P kv) (hf : ∀ a, P (k, a) → P (k, f a)) :
    ∀ kv ∈ mapUpdate m k f, P kv := by
  intro kv hkv
  simp only [mapUpdate, List.mem_map] at hkv
  obtain ⟨kv₀, hm, hEq⟩ := hkv
  subst hEq
  by_cases hk : kv₀.1 = k
  · rw [if_pos (by simp [hk]), hk]
    exact hf kv₀.2 (hk ▸ h kv₀ hm)
  · rw [if_neg (by simp [hk])]
    exact h kv₀ hm

theorem mapSet_forall {α : Type} {P : String × α → Prop}
    {m : List (String × α)} {k : String} {v : α}
    (h : ∀ kv ∈ m, P kv) (hv : P (k, v)) : ∀ kv ∈ mapSet m k v, P kv := by
  unfold mapSet
  split
  · exact mapUpdate_forall h (fun a _ => hv)
  · intro kv hkv
    rcases List.mem_append.mp hkv with h2 | h2
    · exact h kv h2
    · rcases List.mem_singleton.mp h2 with rfl
      exact hv

theorem mem_of_mapLookup {α : Type} {m : List (String × α)} {k : String}
    {a : α} (h : mapLookup m k = some a) : (k, a) ∈ m := by
  unfold mapLookup at h
  rw [Option.map_eq_some'] at h
  obtain ⟨⟨k1, a1⟩, hfind, hv⟩ := h
  have hk : k1 = k := by simpa using List.find?_some hfind
  have hmem := List.mem_of_find?_eq_some hfind
  have ha : a1 = a := hv
  subst hk
  subst ha
  exact hmem

theorem mapLookup_of_mem_nodup {α : Type} {m : List (String × α)} {k : String}
    {a : α} (hnd : (mapKeys m).Nodup) (h : (k, a) ∈ m) :
    mapLookup m k = some a := by
  induction m with
  | nil => simp at h
  | cons kv m ih =>
      simp only [mapKeys, List.map_cons, List.nodup_cons] at hnd
      rcases List.mem_cons.mp h with h1 | h1
      · subst h1; simp [mapLookup_cons]
      · have hk : kv.1 ≠ k := by
          intro hEq
          exact hnd.1 (hEq ▸ (List.mem_map.mpr ⟨(k, a), h1, rfl⟩))
        rw [mapLookup_cons, if_neg hk]
        exact ih (by simpa [mapKeys] using hnd.2) h1

/-! ## Invariants of the aggregation passes -/

theorem claimantKeys_cons (b : Bounty) (rest : List Bounty) :
    claimantKeys (b :: rest) =
      match claimant b with
      | some addr => jsToLower addr :: claimantKeys rest
      | none => claimantKeys rest := by
  cases hc : claimant b <;> simp [claimantKeys, List.filterMap_cons, hc]

theorem processBounties_forall (P : String × AgentProfile → Prop)
    (M : List (String × OnChainReputation))
    (hseed : ∀ addr o, P (jsToLower addr, seedProfile addr o))
    (hstep : ∀ k a b, P (k, a) → P (k, applyBounty a b)) :
    ∀ (bounties : List Bounty) (agents : List (String × AgentProfile)),
      (∀ kv ∈ agents, P kv) → ∀ kv ∈ processBounties M bounties agents, P kv := by
  intro bounties
  induction bounties with
  | nil =>
      intro agents h kv hkv
      exact h kv (by simpa [processBounties] using hkv)
  | cons b rest ih =>
      intro agents h kv hkv
      cases hc : claimant b with
      | none =>
          simp only [processBounties, hc] at hkv
          exact ih agents h kv hkv
      | some addr =>
          simp only [processBounties, hc] at hkv
          refine ih _ ?_ kv hkv
          apply mapUpdate_forall ?_ (fun a hp => hstep _ a b hp)
          by_cases hk : mapHasKey agents (jsToLower addr)
      
          · simpa [hk] using h
          · intro kv₂ hkv₂
            rw [if_neg hk] at hkv₂
            rcases List.mem_append.mp hkv₂ with h2 | h2
            · exact h kv₂ h2
            · rcases List.mem_singleton.mp h2 with rfl
              exact hseed addr _

theorem addOnChainOnly_mem (onChainData : List (String × OnChainReputation)) :
    ∀ (agents : List (String × AgentProfile)),
      ∀ kv ∈ addOnChainOnly agents onChainData,
        kv ∈ agents ∨
          ∃ o, (kv.1, o) ∈ onChainData ∧ kv.2 = profileFromOnChain o := by
  induction onChainData with
  | nil => intro agents kv hkv; exact Or.inl (by simpa [addOnChainOnly] using hkv)
  | cons kv₀ rest ih =>
      intro agents kv hkv
      by_cases hk : mapHasKey agents kv₀.1
      · have hkv2 : kv ∈ addOnChainOnly agents rest := by
          simpa [addOnChainOnly, hk] using hkv
        rcases ih agents kv hkv2 with h | ⟨o, ho, hv⟩
        · exact Or.inl h
        · exact Or.inr ⟨o, List.mem_cons_of_mem _ ho, hv⟩
      · have hkv2 : kv ∈ addOnChainOnly
            (agents ++ [(kv₀.1, profileFromOnChain kv₀.2)]) rest := by
          simpa [addOnChainOnly, hk] using hkv
        rcases ih _ kv hkv2 with h | ⟨o, ho, hv⟩
        · rcases List.mem_append.mp h with h2 | h2
          · exact Or.inl h2
          · rcases List.mem_singleton.mp h2 with rfl
            exact Or.inr ⟨kv₀.2, List.mem_cons_self _ _, rfl⟩
        · exact Or.inr ⟨o, List.mem_cons_of_mem _ ho, hv⟩

theorem mapHasKey_of_mem {α : Type} {m : List (String × α)} {kv : String × α}
    (h : kv ∈ m) : mapHasKey m kv.1 = true := by
  simp only [mapHasKey, List.any_eq_true]
  exact ⟨kv, h, by simp⟩

theorem processBounties_keyMem (M : List (String × OnChainReputation)) :
    ∀ (bounties : List Bounty) (agents : List (String × AgentProfile)),
      ∀ kv ∈ processBounties M bounties agents,
        mapHasKey agents kv.1 = true ∨ kv.1 ∈ claimantKeys bounties := by
  intro bounties
  induction bounties with
  | nil =>
      intro agents kv hkv
      exact Or.inl (mapHasKey_of_mem (by simpa [processBounties] using hkv))
  | cons b rest ih =>
      intro agents kv hkv
      cases hc : claimant b with
      | none =>
          simp only [processBounties, hc] at hkv
          rcases ih agents kv hkv with h | h
          · exact Or.inl h
          · exact Or.inr (by simp [claimantKeys_cons, hc, h])
      | some addr =>
          simp only [processBounties, hc] at hkv
          rcases ih _ kv hkv with h | h
          · rw [mapHasKey_update] at h
            by_cases hk : mapHasKey agents (jsToLower addr)
            · rw [if_pos hk] at h
              exact Or.inl h
            · rw [if_neg hk, mapHasKey_append] at h
              rcases Bool.or_eq_true_iff.mp h with h2 | h2
              · exact Or.inl h2
              · have : kv.1 = jsToLower addr := by
                  have := by simpa [mapHasKey] using h2
                  exact this.symm
                exact Or.inr (by simp [claimantKeys_cons, hc, this])
          · exact Or.inr (by simp [claimantKeys_cons, hc, h])

theorem mapLookup_singleton {α : Type} (k' k : String) (v : α) :
    mapLookup [(k', v)] k = if k' = k then some v else none := by
  rw [show [(k', v)] = (k', v) :: ([] : List (String × α)) from rfl,
    mapLookup_cons]
  rfl

theorem applyAll_nil (k : String) (a : AgentProfile) :
    applyAll k [] a = a := rfl

theorem applyAll_cons_match {k : String} {b : Bounty}
    (h : matchesKey k b = true) (rest : List Bounty) (a : AgentProfile) :
    applyAll k (b :: rest) a = applyAll k rest (applyBounty a b) := by
  simp [applyAll, List.filter_cons, h]

theorem applyAll_cons_nomatch {k : String} {b : Bounty}
    (h : matchesKey k b = false) (rest : List Bounty) (a : AgentProfile) :
    applyAll k (b :: rest) a = applyAll k rest a := by
  simp [applyAll, List.filter_cons, h]

theorem matchesKey_of_claimant_none {k : String} {b : Bounty}
    (hc : claimant b = none) : matchesKey k b = false := by
  simp [matchesKey, hc]

theorem matchesKey_of_claimant_some {k : String} {b : Bounty} {addr : String}
    (hc : claimant b = some addr) : matchesKey k b = (jsToLower addr == k) := by
  simp [matchesKey, hc]

theorem firstClaimant_nil (k : String) : firstClaimant k [] = none := rfl

theorem firstClaimant_cons_none {k : String} {b : Bounty}
    (hc : claimant b = none) (rest : List Bounty) :
    firstClaimant k (b :: rest) = firstClaimant k rest := by
  simp [firstClaimant, List.filterMap_cons, hc]

theorem firstClaimant_cons_some {k : String} {b : Bounty} {addr : String}
    (hc : claimant b = some addr) (rest : List Bounty) :
    firstClaimant k (b :: rest) =
      if jsToLower addr = k then some addr else firstClaimant k rest := by
  by_cases h : jsToLower addr = k <;>
    simp [firstClaimant, List.filterMap_cons, hc, List.find?_cons, h]

/-- Per-key characterisation of the first aggregation pass: the profile
stored under key `k` is the fold of all bounties claimed by `k` over
either the profile already in the accumulator or a fresh seed named
after the first claimant spelling. -/
theorem processBounties_lookup (M : List (String × OnChainReputation)) :
    ∀ (bounties : List Bounty) (agents : List (String × AgentProfile))
      (k : String),
      mapLookup (processBounties M bounties agents) k =
        match mapLookup agents k with
        | some a => some (applyAll k bounties a)
        | none =>
            match firstClaimant k bounties with
            | some addr =>
                some (applyAll k bounties (seedProfile addr (mapLookup M k)))
            | none => none := by
  intro bounties
  induction bounties with
  | nil =>
      intro agents k
      show mapLookup agents k = _
      cases mapLookup agents k <;> simp [applyAll_nil, firstClaimant_nil]
  | cons b rest ih =>
      intro agents k
      cases hc : claimant b with
      | none =>
          simp only [processBounties, hc]
          rw [ih agents k]
          have hm := @matchesKey_of_claimant_none k b hc
          cases mapLookup agents k with
          | some a => simp [applyAll_cons_nomatch hm]
          | none =>
              rw [firstClaimant_cons_none hc]
              cases firstClaimant k rest <;>
                simp [applyAll_cons_nomatch hm]
      | some addr =>
          simp only [processBounties, hc]
          rw [ih _ k]
          by_cases hkey : jsToLower addr = k
          · have hm : matchesKey k b = true := by
              rw [matchesKey_of_claimant_some hc]
              simp [hkey]
            subst hkey
            rw [mapLookup_update_self]
            cases hmem : mapLookup agents (jsToLower addr) with
            | some a =>
                have hk : mapHasKey agents (jsToLower addr) = true := by
                  rw [mapHasKey_eq_isSome, hmem]; rfl
                rw [if_pos hk, hmem]
                simp [applyAll_cons_match hm]
            | none =>
                have hk : ¬mapHasKey agents (jsToLower addr) = true := by
                  rw [mapHasKey_eq_isSome, hmem]; simp
                rw [if_neg hk, mapLookup_append, hmem, mapLookup_singleton,
                  if_pos rfl]
                rw [firstClaimant_cons_some hc, if_pos rfl]
                simp [applyAll_cons_match hm]
          · have hm : matchesKey k b = false := by
              rw [matchesKey_of_claimant_some hc]
              simp [hkey]
            rw [mapLookup_update_ne _ _ hkey]
            have hagents1 :
                mapLookup
                  (if mapHasKey agents (jsToLower addr) = true then agents
                   else agents ++
                     [(jsToLower addr,
                       seedProfile addr (mapLookup M (jsToLower addr)))]) k =
                  mapLookup agents k := by
              by_cases hk : mapHasKey agents (jsToLower addr) = true
              · rw [if_pos hk]
              · rw [if_neg hk, mapLookup_append, mapLookup_singleton,
                  if_neg hkey]
                cases mapLookup agents k <;> rfl
            rw [hagents1]
            cases mapLookup agents k with
            | some a => simp [applyAll_cons_nomatch hm]
            | none =>
                rw [firstClaimant_cons_some hc, if_neg hkey]
                cases firstClaimant k rest <;>
                  simp [applyAll_cons_nomatch hm]

theorem addOnChainOnly_cons (agents : List (String × AgentProfile))
    (kv₀ : String × OnChainReputation)
    (rest : List (String × OnChainReputation)) :
    addOnChainOnly agents (kv₀ :: rest) =
      addOnChainOnly
        (if mapHasKey agents kv₀.1 = true then agents
         else agents ++ [(kv₀.1, profileFromOnChain kv₀.2)]) rest := by
  simp [addOnChainOnly]

theorem addOnChainOnly_lookup :
    ∀ (onChainData : List (String × OnChainReputation))
      (agents : List (String × AgentProfile)) (k : String),
      mapLookup (addOnChainOnly agents onChainData) k =
        (mapLookup agents k).or
          ((mapLookup onChainData k).map profileFromOnChain) := by
  intro onChainData
  induction onChainData with
  | nil =>
      intro agents k
      show mapLookup agents k = _
      cases mapLookup agents k <;> rfl
  | cons kv₀ rest ih =>
      intro agents k
      rw [addOnChainOnly_cons, ih, mapLookup_cons]
      by_cases hk : mapHasKey agents kv₀.1 = true
      · rw [if_pos hk]
        by_cases hkk : kv₀.1 = k
        · rw [if_pos hkk]
          obtain ⟨a, ha⟩ : ∃ a, mapLookup agents k = some a := by
            have := (mapHasKey_eq_isSome agents k).symm ▸ (hkk ▸ hk)
            exact Option.isSome_iff_exists.mp this
          rw [ha]
          rfl
        · rw [if_neg hkk]
      · rw [if_neg hk]
        by_cases hkk : kv₀.1 = k
        · have ha : mapLookup agents k = none := by
            rw [← hkk]
            have := (mapHasKey_eq_isSome agents kv₀.1) ▸ hk
            cases hl : mapLookup agents kv₀.1
            · rfl
            · rw [hl] at this; simp at this
          rw [if_pos hkk, mapLookup_append, ha, mapLookup_singleton,
            if_pos hkk]
          rfl
        · have ha : mapLookup (agents ++ [(kv₀.1, profileFromOnChain kv₀.2)]) k
              = mapLookup agents k := by
            rw [mapLookup_append, mapLookup_singleton, if_neg hkk]
            cases mapLookup agents k <;> rfl
          rw [if_neg hkk, ha]

theorem processBounties_keys_nodup (M : List (String × OnChainReputation)) :
    ∀ (bounties : List Bounty) (agents : List (String × AgentProfile)),
      (mapKeys agents).Nodup →
      (mapKeys (processBounties M bounties agents)).Nodup := by
  intro bounties
  induction bounties with
  | nil =>
      intro agents h
      simpa [processBounties] using h
  | cons b rest ih =>
      intro agents h
      cases hc : claimant b with
      | none =>
          simp only [processBounties, hc]
          exact ih agents h
      | some addr =>
          simp only [processBounties, hc]
          apply ih
          rw [mapKeys_update]
          by_cases hk : mapHasKey agents (jsToLower addr) = true
          · rwa [if_pos hk]
          · rw [if_neg hk, mapKeys_append]
            refine ((List.perm_append_singleton _ _).nodup_iff).mpr
              (List.nodup_cons.mpr ⟨?_, h⟩)
            intro hmem
            exact hk ((mapHasKey_iff_mem_keys agents (jsToLower addr)).mpr
              (by simpa [mapKeys] using hmem))

theorem addOnChainOnly_keys_nodup :
    ∀ (onChainData : List (String × OnChainReputation))
      (agents : List (String × AgentProfile)),
      (mapKeys agents).Nodup →
      (mapKeys (addOnChainOnly agents onChainData)).Nodup := by
  intro onChainData
  induction onChainData with
  | nil => intro agents h; simpa [addOnChainOnly] using h
  | cons kv₀ rest ih =>
      intro agents h
      rw [addOnChainOnly_cons]
      by_cases hk : mapHasKey agents kv₀.1 = true
      · rw [if_pos hk]; exact ih agents h
      · rw [if_neg hk]
        apply ih
        rw [mapKeys_append]
        refine ((List.perm_append_singleton _ _).nodup_iff).mpr
          (List.nodup_cons.mpr ⟨?_, h⟩)
        intro hmem
        exact hk ((mapHasKey_iff_mem_keys agents kv₀.1).mpr
          (by simpa [mapKeys] using hmem))

/-! ## Field content of the accumulated profile -/

theorem applyBounty_address (a : AgentProfile) (b : Bounty) :
    (applyBounty a b).address = a.address := rfl

theorem applyAll_address (k : String) :
    ∀ (L : List Bounty) (a : AgentProfile),
      (applyAll k L a).address = a.address := by
  intro L
  induction L with
  | nil => intro a; rfl
  | cons b rest ih =>
      intro a
      cases hm : matchesKey k b
      · rw [applyAll_cons_nomatch hm]; exact ih a
      · rw [applyAll_cons_match hm]; exact ih _

theorem specEarnings_nil (k : String) : specEarnings k [] = 0 := rfl

theorem specEarnings_cons (k : String) (b : Bounty) (rest : List Bounty) :
    specEarnings k (b :: rest) =
      if matchesKey k b && (b.status == "completed") then
        paymentAmount b / 1000000 + specEarnings k rest
      else specEarnings k rest := by
  unfold specEarnings
  rw [List.filter_cons]
  by_cases h : (matchesKey k b && (b.status == "completed")) = true
  · rw [if_pos h, if_pos h, List.map_cons, List.sum_cons]
  · rw [if_neg h, if_neg h]

theorem applyAll_earnings (k : String) :
    ∀ (L : List Bounty) (a : AgentProfile),
      (applyAll k L a).totalEarnings = a.totalEarnings + specEarnings k L := by
  intro L
  induction L with
  | nil => intro a; simp [applyAll_nil, specEarnings_nil]
  | cons b rest ih =>
      intro a
      rw [specEarnings_cons]
      cases hm : matchesKey k b with
      | false =>
          rw [applyAll_cons_nomatch hm, ih a]
          simp
      | true =>
          rw [applyAll_cons_match hm, ih _]
          by_cases hs : b.status = "completed"
          · rw [if_pos (by simp [hm, hs])]
            show (if b.status = "completed" then
              a.totalEarnings + computedReward b else a.totalEarnings) +
                specEarnings k rest = _
            rw [if_pos hs, computedReward, if_pos hs]
            ring
          · rw [if_neg (by simp [hm, hs])]
            show (if b.status = "completed" then
              a.totalEarnings + computedReward b else a.totalEarnings) +
                specEarnings k rest = _
            rw [if_neg hs]

/-- The agents map right before the rate/sort passes of
`aggregateAgents`. -/
def aggEntries (bounties : List Bounty)
    (M : List (String × OnChainReputation)) : List (String × AgentProfile) :=
  addOnChainOnly (processBounties M bounties []) M

theorem aggEntries_lookup (bounties : List Bounty)
    (M : List (String × OnChainReputation)) (k : String) :
    mapLookup (aggEntries bounties M) k =
      (match firstClaimant k bounties with
       | some addr =>
           some (applyAll k bounties (seedProfile addr (mapLookup M k)))
       | none => none).or ((mapLookup M k).map profileFromOnChain) := by
  unfold aggEntries
  rw [addOnChainOnly_lookup, processBounties_lookup]
  rfl

theorem aggEntries_keys_nodup (bounties : List Bounty)
    (M : List (String × OnChainReputation)) :
    (mapKeys (aggEntries bounties M)).Nodup :=
  addOnChainOnly_keys_nodup M _
    (processBounties_keys_nodup M bounties [] (by simp [mapKeys]))

theorem mem_aggregateAgents {p : AgentProfile} (bounties : List Bounty)
    (M : List (String × OnChainReputation)) :
    p ∈ aggregateAgents bounties M ↔
      ∃ kv ∈ aggEntries bounties M, setRate kv.2 = p := by
  unfold aggregateAgents aggEntries
  rw [List.mem_mergeSort, List.mem_map]

theorem aggEntries_counts (bounties : List Bounty)
    (M : List (String × OnChainReputation)) :
    ∀ kv ∈ aggEntries bounties M,
      kv.2.bountiesCompleted ≤ kv.2.bountiesClaimed ∧
      kv.2.bountiesClaimed = kv.2.history.length := by
  intro kv hkv
  rcases addOnChainOnly_mem M _ kv hkv with h | ⟨o, _, hv⟩
  · refine processBounties_forall (fun kv =>
      kv.2.bountiesCompleted ≤ kv.2.bountiesClaimed ∧
      kv.2.bountiesClaimed = kv.2.history.length) M ?_ ?_ bounties [] ?_ kv h
    · intro addr o
      exact ⟨Nat.le_refl 0, rfl⟩
    · intro k a b hp
      have h1 : a.bountiesCompleted ≤ a.bountiesClaimed := hp.1
      have h2 : a.bountiesClaimed = a.history.length := hp.2
      refine ⟨?_, ?_⟩
      · show (applyBounty a b).bountiesCompleted ≤
          (applyBounty a b).bountiesClaimed
        simp only [applyBounty]
        split <;> omega
      · show (applyBounty a b).bountiesClaimed =
          (applyBounty a b).history.length
        simp only [applyBounty, List.length_append, List.length_singleton]
        omega
    · intro kv hkv2
      simp at hkv2
  · rw [hv]
    exact ⟨Nat.le_refl 0, rfl⟩

theorem aggEntries_addr (bounties : List Bounty)
    (M : List (String × OnChainReputation))
    (hM : ∀ kv ∈ M, kv.1 = jsToLower kv.2.address) :
    ∀ kv ∈ aggEntries bounties M, kv.1 = jsToLower kv.2.address := by
  intro kv hkv
  rcases addOnChainOnly_mem M _ kv hkv with h | ⟨o, ho, hv⟩
  · refine processBounties_forall
      (fun kv => kv.1 = jsToLower kv.2.address) M ?_ ?_ bounties [] ?_ kv h
    · intro addr o
      rfl
    · intro k a b hp
      exact hp
    · intro kv hkv2
      simp at hkv2
  · rw [hv]
    exact hM (kv.1, o) ho

theorem setRate_address (a : AgentProfile) : (setRate a).address = a.address :=
  rfl

theorem setRate_earnings (a : AgentProfile) :
    (setRate a).totalEarnings = a.totalEarnings := rfl

theorem setRate_claimed (a : AgentProfile) :
    (setRate a).bountiesClaimed = a.bountiesClaimed := rfl

theorem setRate_completed (a : AgentProfile) :
    (setRate a).bountiesCompleted = a.bountiesCompleted := rfl

theorem setRate_history (a : AgentProfile) :
    (setRate a).history = a.history := rfl

theorem setRate_rate (a : AgentProfile) :
    (setRate a).successRate =
      if 0 < a.bountiesClaimed then
        jsRound (((a.bountiesCompleted : ℚ) / (a.bountiesClaimed : ℚ)) * 100)
      else 0 := rfl

/-! ## Order properties of the comparator -/

theorem profLe_trans (a b c : AgentProfile) :
    profLe a b → profLe b c → profLe a c := by
  simp only [profLe, decide_eq_true_eq]
  rintro (h1 | ⟨h1, h1e⟩) (h2 | ⟨h2, h2e⟩)
  · exact Or.inl (h2.trans h1)
  · exact Or.inl (h2 ▸ h1)
  · exact Or.inl (h1 ▸ h2)
  · exact Or.inr ⟨h2.trans h1, h2e.trans h1e⟩

theorem profLe_total (a b : AgentProfile) : profLe a b || profLe b a := by
  simp only [profLe, Bool.or_eq_true, decide_eq_true_eq]
  rcases Nat.lt_trichotomy a.onChainReputation b.onChainReputation with
    h | h | h
  · exact Or.inr (Or.inl h)
  · rcases le_total a.totalEarnings b.totalEarnings with he | he
    · exact Or.inr (Or.inr ⟨h, he⟩)
    · exact Or.inl (Or.inr ⟨h.symm, he⟩)
  · exact Or.inl (Or.inl h)

theorem jsRound_bounds {q : ℚ} (h0 : 0 ≤ q) (h100 : q ≤ 100) :
    0 ≤ jsRound q ∧ jsRound q ≤ 100 := by
  unfold jsRound
  constructor
  · exact Int.le_floor.mpr (by push_cast; linarith)
  · have h2 : q + 1 / 2 < 101 := by linarith
    have h3 : ⌊q + 1 / 2⌋ < (101 : ℤ) := Int.floor_lt.mpr (by push_cast; linarith)
    omega

/-! ## The claims -/

/-- C2.  `fetchReputation` is total and well-formed for every address: it
echoes the address back, defaults the score to 0 when the score read
fails, defaults the feedback to `[]` when the feedback read fails or
yields a non-array, and in particular returns `{address, 0, []}` when
every contract read throws.  (In the model the function's type already
rules out propagating an exception.) -/
theorem fetchOnChainReputation_total (addr : String) (scoreRes : Option ℕ)
    (feedbackRes : Option (Option (List RawFeedback))) :
    (fetchOnChainReputation addr scoreRes feedbackRes).address = addr ∧
    (scoreRes = none →
      (fetchOnChainReputation addr scoreRes feedbackRes).reputationScore = 0) ∧
    (feedbackRes = none ∨ feedbackRes = some none →
      (fetchOnChainReputation addr scoreRes feedbackRes).feedback = []) ∧
    fetchOnChainReputation addr none none =
      { address := addr, reputationScore := 0, feedback := [] } := by
  refine ⟨rfl, ?_, ?_, rfl⟩
  · rintro rfl
    rfl
  · rintro (rfl | rfl) <;> rfl

/-- C2 witness at a concrete address and failing reads. -/
theorem fetchOnChainReputation_total_witness :
    (fetchOnChainReputation "0xABC" none none).address = "0xABC" ∧
    (fetchOnChainReputation "0xABC" none none).reputationScore = 0 ∧
    (fetchOnChainReputation "0xABC" none none).feedback = [] ∧
    fetchOnChainReputation "0xABC" none none =
      { address := "0xABC", reputationScore := 0, feedback := [] } := by
  obtain ⟨h1, h2, h3, h4⟩ := fetchOnChainReputation_total "0xABC" none none
  exact ⟨h1, h2 rfl, h3 (Or.inl rfl), h4⟩

/-- C4.  The output of `aggregateAgents` is sorted descending on the
pair (on-chain reputation, total earnings): whenever `a` precedes `b`,
either `a` has strictly larger reputation, or the reputations are equal
and `a`'s earnings are at least `b`'s. -/
theorem aggregateAgents_sorted (bounties : List Bounty)
    (M : List (String × OnChainReputation)) :
    (aggregateAgents bounties M).Pairwise (fun a b =>
      b.onChainReputation < a.onChainReputation ∨
      (a.onChainReputation = b.onChainReputation ∧
        b.totalEarnings ≤ a.totalEarnings)) := by
  have h := @List.sorted_mergeSort AgentProfile profLe profLe_trans
    profLe_total ((aggEntries bounties M).map (fun kv => setRate kv.2))
  refine List.Pairwise.imp ?_ h
  intro a b hab
  rcases (by simpa [profLe] using hab :
    b.onChainReputation < a.onChainReputation ∨
      b.onChainReputation = a.onChainReputation ∧
        b.totalEarnings ≤ a.totalEarnings) with h1 | ⟨h1, h2⟩
  · exact Or.inl h1
  · exact Or.inr ⟨h1.symm, h2⟩

/-- C5.  Every profile produced by `aggregateAgents` has
`bountiesCompleted ≤ bountiesClaimed` and a success rate between 0 and
100. -/
theorem aggregateAgents_bounds (bounties : List Bounty)
    (M : List (String × OnChainReputation)) :
    ∀ p ∈ aggregateAgents bounties M,
      p.bountiesCompleted ≤ p.bountiesClaimed ∧
      0 ≤ p.successRate ∧ p.successRate ≤ 100 := by
  intro p hp
  rcases (mem_aggregateAgents bounties M).mp hp with ⟨kv, hkv, hset⟩
  have hc := (aggEntries_counts bounties M kv hkv).1
  subst hset
  rw [setRate_claimed, setRate_completed, setRate_rate]
  refine ⟨hc, ?_⟩
  by_cases h : 0 < kv.2.bountiesClaimed
  · rw [if_pos h]
    have hn : (0 : ℚ) < (kv.2.bountiesClaimed : ℚ) := by exact_mod_cast h
    have hq0 : (0 : ℚ) ≤
        (kv.2.bountiesCompleted : ℚ) / (kv.2.bountiesClaimed : ℚ) * 100 := by
      positivity
    have hq1 : (kv.2.bountiesCompleted : ℚ) / (kv.2.bountiesClaimed : ℚ) ≤ 1 := by
      rw [div_le_one hn]
      exact_mod_cast hc
    exact jsRound_bounds hq0 (by linarith)
  · rw [if_neg h]
    exact ⟨le_refl 0, by norm_num⟩

/-- C6.  The success rate of every output profile is 0 when no bounty
was claimed and `round(100 * completed / claimed)` otherwise, with
JS-style rounding (half up). -/
theorem aggregateAgents_successRate (bounties : List Bounty)
    (M : List (String × OnChainReputation)) :
    ∀ p ∈ aggregateAgents bounties M,
      p.successRate =
        if p.bountiesClaimed = 0 then 0
        else jsRound
          (100 * (p.bountiesCompleted : ℚ) / (p.bountiesClaimed : ℚ)) := by
  intro p hp
  rcases (mem_aggregateAgents bounties M).mp hp with ⟨kv, hkv, hset⟩
  subst hset
  rw [setRate_claimed, setRate_completed, setRate_rate]
  by_cases h : kv.2.bountiesClaimed = 0
  · rw [if_pos h, if_neg (by omega)]
  · rw [if_neg h, if_pos (by omega)]
    congr 1
    ring

theorem specEarnings_of_no_claimant {k : String} {bounties : List Bounty}
    (h : firstClaimant k bounties = none) : specEarnings k bounties = 0 := by
  have hall := List.find?_eq_none.mp h
  have hfil :
      bounties.filter (fun b => matchesKey k b && (b.status == "completed"))
        = [] := by
    rw [List.filter_eq_nil_iff]
    intro b hb
    cases hc : claimant b with
    | none => simp [matchesKey, hc]
    | some s =>
        have hs : s ∈ bounties.filterMap claimant :=
          List.mem_filterMap.mpr ⟨b, hb, hc⟩
        have := hall s hs
        simp only [matchesKey, hc]
        simp only [beq_iff_eq] at this ⊢
        simp [this]
  unfold specEarnings
  rw [hfil]
  rfl

/-- C10.  Every profile of `aggregateAgents` has exactly one history
entry per claimed bounty (`bountiesClaimed = history.length`), and a
profile added only from the on-chain map (its address never claims a
bounty) has `bountiesClaimed = 0` and an empty history.  The hypothesis
states that the on-chain map is keyed by the lower-cased address of its
entries, as both map producers guarantee. -/
theorem aggregateAgents_claimed_eq_history (bounties : List Bounty)
    (M : List (String × OnChainReputation))
    (hM : ∀ kv ∈ M, kv.1 = jsToLower kv.2.address) :
    ∀ p ∈ aggregateAgents bounties M,
      p.bountiesClaimed = p.history.length ∧
      (jsToLower p.address ∉ claimantKeys bounties →
        p.bountiesClaimed = 0 ∧ p.history = []) := by
  intro p hp
  rcases (mem_aggregateAgents bounties M).mp hp with ⟨kv, hkv, hset⟩
  have hcnt := (aggEntries_counts bounties M kv hkv).2
  have haddr := aggEntries_addr bounties M hM kv hkv
  subst hset
  rw [setRate_claimed, setRate_history, setRate_address]
  refine ⟨hcnt, ?_⟩
  intro hnot
  rw [← haddr] at hnot
  rcases addOnChainOnly_mem M _ kv hkv with h | ⟨o, _, hv⟩
  · rcases processBounties_keyMem M bounties [] kv h with h2 | h2
    · simp [mapHasKey] at h2
    · exact absurd h2 hnot
  · rw [hv]
    exact ⟨rfl, rfl⟩

/-- C3.  For every profile in the output of `aggregateAgents`,
`totalEarnings` is the sum, over exactly the profile's completed
bounties, of the payment amount (`grossAmount`, else `grossReward`,
else 0) divided by 1,000,000.  The hypothesis states that the on-chain
map is keyed by the lower-cased address of its entries, as both map
producers guarantee. -/
theorem aggregateAgents_earnings (bounties : List Bounty)
    (M : List (String × OnChainReputation))
    (hM : ∀ kv ∈ M, kv.1 = jsToLower kv.2.address) :
    ∀ p ∈ aggregateAgents bounties M,
      p.totalEarnings = specEarnings (jsToLower p.address) bounties := by
  intro p hp
  rcases (mem_aggregateAgents bounties M).mp hp with ⟨kv, hkv, hset⟩
  have haddr := aggEntries_addr bounties M hM kv hkv
  subst hset
  rw [setRate_earnings, setRate_address, ← haddr]
  have hl : mapLookup (aggEntries bounties M) kv.1 = some kv.2 :=
    mapLookup_of_mem_nodup (aggEntries_keys_nodup bounties M) hkv
  rw [aggEntries_lookup] at hl
  cases hfc : firstClaimant kv.1 bounties with
  | some addr =>
      rw [hfc] at hl
      have hkv2 : kv.2 =
          applyAll kv.1 bounties (seedProfile addr (mapLookup M kv.1)) := by
        have : (some (applyAll kv.1 bounties
            (seedProfile addr (mapLookup M kv.1)))).or
            ((mapLookup M kv.1).map profileFromOnChain) =
            some (applyAll kv.1 bounties
              (seedProfile addr (mapLookup M kv.1))) := rfl
        rw [this] at hl
        exact (Option.some_inj.mp hl).symm
      rw [hkv2, applyAll_earnings]
      show 0 + specEarnings kv.1 bounties = specEarnings kv.1 bounties
      rw [zero_add]
  | none =>
      rw [hfc] at hl
      have : (mapLookup M kv.1).map profileFromOnChain = some kv.2 := hl
      obtain ⟨o, _, hv⟩ := Option.map_eq_some'.mp this
      rw [← hv]
      show (0 : ℚ) = specEarnings kv.1 bounties
      rw [specEarnings_of_no_claimant hfc]

theorem firstClaimant_isSome_iff (k : String) (bounties : List Bounty) :
    (firstClaimant k bounties).isSome = true ↔ k ∈ claimantKeys bounties := by
  unfold firstClaimant claimantKeys
  rw [List.find?_isSome]
  simp [List.mem_map]

theorem aggEntries_hasKey_iff (bounties : List Bounty)
    (M : List (String × OnChainReputation)) (x : String) :
    mapHasKey (aggEntries bounties M) x = true ↔
      x ∈ claimantKeys bounties ∨ x ∈ mapKeys M := by
  rw [mapHasKey_eq_isSome, aggEntries_lookup]
  constructor
  · intro h
    cases hfc : firstClaimant x bounties with
    | some addr =>
        exact Or.inl ((firstClaimant_isSome_iff x bounties).mp
          (by rw [hfc]; rfl))
    | none =>
        rw [hfc] at h
        right
        rw [← mapHasKey_iff_mem_keys, mapHasKey_eq_isSome]
        cases hm : mapLookup M x with
        | some o => rfl
        | none => rw [hm] at h; simp at h
  · intro h
    cases h with
    | inl h =>
        obtain ⟨addr, hfc⟩ := Option.isSome_iff_exists.mp
          ((firstClaimant_isSome_iff x bounties).mpr h)
        rw [hfc]
        rfl
    | inr h =>
        cases hfc : firstClaimant x bounties with
        | some addr => rfl
        | none =>
            have h2 := (mapHasKey_iff_mem_keys M x).mpr h
            rw [mapHasKey_eq_isSome] at h2
            obtain ⟨o, ho⟩ := Option.isSome_iff_exists.mp h2
            rw [ho]
            rfl

/-- C1.  For every bounty list and on-chain map (keyed, as the data
model specifies and both map producers guarantee, by the lower-cased
address of each entry), every address that claims some bounty or is a
key of the map appears exactly once, case-insensitively, among the
profiles of `aggregateAgents`, and no other address appears. -/
theorem aggregateAgents_unique_addresses (bounties : List Bounty)
    (M : List (String × OnChainReputation))
    (hM : ∀ kv ∈ M, kv.1 = jsToLower kv.2.address) (x : String) :
    ((aggregateAgents bounties M).map (fun p => jsToLower p.address)).count x
      = if x ∈ claimantKeys bounties ∨ x ∈ mapKeys M then 1 else 0 := by
  have hperm :=
    (List.mergeSort_perm
      ((aggEntries bounties M).map (fun kv => setRate kv.2)) profLe).map
      (fun p => jsToLower p.address)
  rw [show aggregateAgents bounties M = List.mergeSort
    ((aggEntries bounties M).map (fun kv => setRate kv.2)) profLe from rfl]
  rw [hperm.count_eq, List.map_map]
  have hcongr : (aggEntries bounties M).map
      ((fun p => jsToLower p.address) ∘ (fun kv => setRate kv.2)) =
      mapKeys (aggEntries bounties M) := by
    apply List.map_congr_left
    intro kv hkv
    show jsToLower (setRate kv.2).address = kv.1
    rw [setRate_address]
    exact (aggEntries_addr bounties M hM kv hkv).symm
  rw [hcongr]
  have hnodup := aggEntries_keys_nodup bounties M
  by_cases hmem : x ∈ mapKeys (aggEntries bounties M)
  · rw [if_pos ((aggEntries_hasKey_iff bounties M x).mp
      ((mapHasKey_iff_mem_keys _ x).mpr hmem))]
    have h1 := List.nodup_iff_count_le_one.mp hnodup x
    have h2 : 0 < (mapKeys (aggEntries bounties M)).count x :=
      List.count_pos_iff.mpr hmem
    omega
  · rw [if_neg (fun hcond => hmem ((mapHasKey_iff_mem_keys _ x).mp
      ((aggEntries_hasKey_iff bounties M x).mpr hcond)))]
    exact List.count_eq_zero_of_not_mem hmem

/-- C7.  A `getAgents` call that finds a cached list younger than the
60-second TTL returns exactly the stored list and leaves the cache
state untouched, whatever the fetch results would have been (so nothing
is recomputed or re-fetched); and any call either leaves the state
unchanged or stamps the cache with the completion time of the fresh
computation. -/
theorem getAgents_cacheHit (st : CacheState) (now : ℤ)
    (l : List AgentProfile) (hc : st.cachedAgents = some l)
    (ht : now - st.cacheTime < CACHE_TTL) :
    (∀ bountiesRes onChainRes repEnv tEnd,
        getAgents st now bountiesRes onChainRes repEnv tEnd = (l, st)) ∧
    (∀ (st2 : CacheState) (now2 : ℤ) bountiesRes onChainRes repEnv tEnd,
        (getAgents st2 now2 bountiesRes onChainRes repEnv tEnd).2 = st2 ∨
        (getAgents st2 now2 bountiesRes onChainRes repEnv tEnd).2.cacheTime
          = tEnd) := by
  constructor
  · intro bRes oRes env tEnd
    simp [getAgents, hc, ht]
  · intro st2 now2 bRes oRes env tEnd
    rcases hsc : st2.cachedAgents with _ | cached
    · right
      simp [getAgents, hsc]
    · by_cases h2 : now2 - st2.cacheTime < CACHE_TTL
      · left
        simp [getAgents, hsc, h2]
      · right
        simp [getAgents, hsc, h2]

theorem mapSet_length {α : Type} (m : List (String × α)) (k : String)
    (v : α) : (mapSet m k v).length ≤ m.length + 1 := by
  unfold mapSet
  split
  · rw [mapUpdate, List.length_map]
    omega
  · rw [List.length_append]
    simp

/-- C8.  `fetchAllOnChainAgents` returns the empty mapping whenever the
agent-count read fails; otherwise the mapping holds at most
`min(count, 50)` entries (each failed index being silently skipped) and
is keyed by the lower-cased address of each entry. -/
theorem fetchAllOnChainAgents_spec (countRes : Option ℕ)
    (idxEnv : ℕ → Option String)
    (repEnv : String → Option ℕ × Option (Option (List RawFeedback))) :
    (countRes = none → fetchAllOnChainAgents countRes idxEnv repEnv = []) ∧
    (fetchAllOnChainAgents countRes idxEnv repEnv).length ≤
      min (countRes.getD 0) 50 ∧
    (∀ kv ∈ fetchAllOnChainAgents countRes idxEnv repEnv,
      kv.1 = jsToLower kv.2.address) := by
  have hlen : ∀ (L : List ℕ) (acc : List (String × OnChainReputation)),
      (L.foldl (fun acc i =>
        match idxEnv i with
        | some addr =>
            mapSet acc (jsToLower addr)
              (fetchOnChainReputation addr (repEnv addr).1 (repEnv addr).2)
        | none => acc) acc).length ≤ acc.length + L.length := by
    intro L
    induction L with
    | nil => intro acc; simp
    | cons i rest ih =>
        intro acc
        rw [List.foldl_cons]
        refine le_trans (ih _) ?_
        cases hi : idxEnv i with
        | none =>
            simp only [hi, List.length_cons]
            omega
        | some addr =>
            have hm := mapSet_length acc (jsToLower addr)
              (fetchOnChainReputation addr (repEnv addr).1 (repEnv addr).2)
            simp only [hi, List.length_cons]
            omega
  have hkeys : ∀ (L : List ℕ) (acc : List (String × OnChainReputation)),
      (∀ kv ∈ acc, kv.1 = jsToLower kv.2.address) →
      ∀ kv ∈ (L.foldl (fun acc i =>
        match idxEnv i with
        | some addr =>
            mapSet acc (jsToLower addr)
              (fetchOnChainReputation addr (repEnv addr).1 (repEnv addr).2)
        | none => acc) acc), kv.1 = jsToLower kv.2.address := by
    intro L
    induction L with
    | nil => intro acc hacc; simpa using hacc
    | cons i rest ih =>
        intro acc hacc
        rw [List.foldl_cons]
        cases hi : idxEnv i with
        | none =>
            simp only [hi]
            exact ih acc hacc
        | some addr =>
            simp only [hi]
            exact ih _ (mapSet_forall hacc rfl)
  refine ⟨?_, ?_, ?_⟩
  · rintro rfl
    rfl
  · unfold fetchAllOnChainAgents
    by_cases hcount : 0 < countRes.getD 0
    · rw [if_pos hcount]
      refine le_trans (hlen _ []) ?_
      simp
    · rw [if_neg hcount]
      simp
  · unfold fetchAllOnChainAgents
    by_cases hcount : 0 < countRes.getD 0
    · rw [if_pos hcount]
      exact hkeys _ [] (by simp)
    · rw [if_neg hcount]
      intro kv hkv
      simp at hkv

/-- C9.  The single-agent handler matches case-insensitively against
the cached aggregation: it answers the distinct not-found response
exactly when no cached profile's address matches, and any found profile
is a member of the aggregation whose address matches — never a
defaulted or zeroed profile. -/
theorem handleAgentRequest_spec (agents : List AgentProfile)
    (addr : String) :
    (handleAgentRequest agents addr = AgentResponse.notFound ↔
      ∀ a ∈ agents, jsToLower a.address ≠ jsToLower addr) ∧
    (∀ p, handleAgentRequest agents addr = AgentResponse.found p →
      p ∈ agents ∧ jsToLower p.address = jsToLower addr) := by
  unfold handleAgentRequest
  cases hf : agents.find? (fun a => jsToLower a.address == jsToLower addr) with
  | some a =>
      constructor
      · constructor
        · intro h
          simp at h
        · intro hall
          have hmem := List.mem_of_find?_eq_some hf
          have hpred := List.find?_some hf
          exact absurd (by simpa using hpred) (hall a hmem)
      · intro p hp
        have hap : a = p := by
          injection hp
        subst hap
        exact ⟨List.mem_of_find?_eq_some hf,
          by simpa using List.find?_some hf⟩
  | none =>
      constructor
      · constructor
        · intro _ a ha
          have := List.find?_eq_none.mp hf a ha
          simpa using this
        · intro _
          rfl
      · intro p hp
        exact absurd hp (by simp)

/-! ## Witnesses on the example data -/

theorem aggregateAgents_example :
    aggregateAgents [exBounty] exM = [exProfileD, exProfileA] := by
  simp +decide [aggregateAgents, aggEntries, processBounties, addOnChainOnly,
    claimant, exBounty, exM, exRep, mapHasKey, mapLookup, mapUpdate,
    seedProfile, applyBounty, computedReward, paymentAmount, tagBump,
    profileFromOnChain, setRate, jsRound, lastTen, List.mergeSort, profLe,
    exProfileD, exProfileA, jsToLower]
  norm_num

/-- C1 witness: on the example data the address `0xabc` occurs exactly
once among the output profiles. -/
theorem aggregateAgents_unique_addresses_witness :
    (((aggregateAgents [exBounty] exM).map
        (fun p => jsToLower p.address)).count "0xabc"
      = if "0xabc" ∈ claimantKeys [exBounty] ∨ "0xabc" ∈ mapKeys exM then 1
        else 0) ∧
    ((aggregateAgents [exBounty] exM).map
      (fun p => jsToLower p.address)).count "0xabc" = 1 :=
  ⟨aggregateAgents_unique_addresses [exBounty] exM (by decide) "0xabc",
   by rw [aggregateAgents_example]; decide⟩

/-- C3 witness: the spec scenario profile earns exactly 5.0. -/
theorem aggregateAgents_earnings_witness :
    exProfileA.totalEarnings =
      specEarnings (jsToLower exProfileA.address) [exBounty] ∧
    exProfileA.totalEarnings = 5 :=
  ⟨aggregateAgents_earnings [exBounty] exM (by decide) exProfileA
     (by rw [aggregateAgents_example]; simp),
   rfl⟩

/-- C5 witness at the spec scenario profile. -/
theorem aggregateAgents_bounds_witness :
    exProfileA.bountiesCompleted ≤ exProfileA.bountiesClaimed ∧
    0 ≤ exProfileA.successRate ∧ exProfileA.successRate ≤ 100 :=
  aggregateAgents_bounds [exBounty] exM exProfileA
    (by rw [aggregateAgents_example]; simp)

/-- C6 witness: the spec scenario profile has success rate 100. -/
theorem aggregateAgents_successRate_witness :
    (exProfileA.successRate =
      if exProfileA.bountiesClaimed = 0 then 0
      else jsRound (100 * (exProfileA.bountiesCompleted : ℚ) /
        (exProfileA.bountiesClaimed : ℚ))) ∧
    exProfileA.successRate = 100 :=
  ⟨aggregateAgents_successRate [exBounty] exM exProfileA
     (by rw [aggregateAgents_example]; simp),
   rfl⟩

/-- C10 witness: the on-chain-only profile claims no bounty and has an
empty history. -/
theorem aggregateAgents_claimed_eq_history_witness :
    (exProfileD.bountiesClaimed = exProfileD.history.length ∧
      (jsToLower exProfileD.address ∉ claimantKeys [exBounty] →
        exProfileD.bountiesClaimed = 0 ∧ exProfileD.history = [])) ∧
    jsToLower exProfileD.address ∉ claimantKeys [exBounty] :=
  ⟨aggregateAgents_claimed_eq_history [exBounty] exM (by decide) exProfileD
     (by rw [aggregateAgents_example]; simp),
   by decide⟩

/-- C7 witness: a call 1 second after a cached computation returns the
cached list and leaves the state unchanged. -/
theorem getAgents_cacheHit_witness :
    getAgents { cachedAgents := some [exProfileA], cacheTime := 1000 } 2000
      none none (fun _ => (none, none)) 5 =
      ([exProfileA], { cachedAgents := some [exProfileA], cacheTime := 1000 }) :=
  (getAgents_cacheHit { cachedAgents := some [exProfileA], cacheTime := 1000 }
    2000 [exProfileA] rfl (by decide)).1 none none (fun _ => (none, none)) 5

/-- C8 witness: a failed count read yields the empty mapping, and with
count 3 the mapping respects the bound and the key discipline. -/
theorem fetchAllOnChainAgents_spec_witness :
    fetchAllOnChainAgents none exIdxEnv exRepEnv = [] ∧
    (fetchAllOnChainAgents (some 3) exIdxEnv exRepEnv).length ≤ min 3 50 ∧
    (∀ kv ∈ fetchAllOnChainAgents (some 3) exIdxEnv exRepEnv,
      kv.1 = jsToLower kv.2.address) :=
  ⟨(fetchAllOnChainAgents_spec none exIdxEnv exRepEnv).1 rfl,
   (fetchAllOnChainAgents_spec (some 3) exIdxEnv exRepEnv).2.1,
   (fetchAllOnChainAgents_spec (some 3) exIdxEnv exRepEnv).2.2⟩

/-- C9 witness: an address absent from the cached aggregation yields the
distinct not-found response. -/
theorem handleAgentRequest_spec_witness :
    handleAgentRequest [exProfileA] "0xZZZ" = AgentResponse.notFound :=
  (handleAgentRequest_spec [exProfileA] "0xZZZ").1.mpr (by decide)
